import Mathlib

/-!
Verification development for the feature-selection notebook.

The notebook applies four feature-selection techniques to one tabular dataset
(8 numeric attribute columns plus one label column): univariate statistical
scoring (`SelectKBest` with chi-squared), recursive feature elimination
(`RFE`), principal component analysis (`PCA`), and ensemble importance
(`ExtraTreesClassifier`).  Every computational step delegates to an external
library; the repository sources contain only the calls and the printing.
Definitions below that embed the external estimators are therefore modelled
from the specification and marked as such in their doc comments; the
notebook-level structure (slicing `X = array[:,0:8]`, `Y = array[:,8]`, the
order of reads and prints in each cell) is embedded from the source.

Matrices are lists of rows over `ℚ`; attribute matrices are also viewed
column-wise as lists of columns.
-/

namespace FeatureSelection

/-- Number of attribute columns: the notebook slices `X = array[:,0:8]`. -/
def attrCount : Nat := 8

/-- The attribute matrix, row-wise: each record's first 8 fields (`X = array[:,0:8]`). -/
def getX (rows : List (List ℚ)) : List (List ℚ) :=
  rows.map (fun r => r.take attrCount)

/-- The label vector: each record's final field (`Y = array[:,8]`). -/
def getY (rows : List (List ℚ)) : List ℚ :=
  rows.map (fun r => r.getD attrCount 0)

/-- Column-major view of the attribute matrix: column `i` collects field `i`
of every record, for `i < 8`. -/
def colsOf (rows : List (List ℚ)) : List (List ℚ) :=
  (List.range attrCount).map (fun i => rows.map (fun r => r.getD i 0))

/-- Comparison placing attribute index `i` before `j` when `i`'s score is at
least `j`'s (descending score order). -/
def scoreGE (scores : List ℚ) (i j : Nat) : Bool :=
  decide (scores.getD j 0 ≤ scores.getD i 0)

/-- Modelled from the spec: the `k` best attribute indices chosen by the
univariate selector (`SelectKBest`, whose implementation is not part of this
repository's sources).  All indices are ordered by descending score and the
first `k` are kept. -/
def topKIndices (scores : List ℚ) (k : Nat) : List Nat :=
  ((List.range scores.length).mergeSort (scoreGE scores)).take k

/-- Modelled from the spec: the per-attribute score array returned by the
univariate selector's fit, one score per attribute column. -/
def skbScores (scoreFn : List ℚ → List ℚ → ℚ) (Xcols : List (List ℚ))
    (Y : List ℚ) : List ℚ :=
  Xcols.map (fun c => scoreFn c Y)

/-- Modelled from the spec: the selected attribute positions in ascending
position order (the library reduces the matrix with a boolean support mask
over positions). -/
def skbSupport (scores : List ℚ) (k : Nat) : List Nat :=
  (List.range scores.length).filter (fun i => decide (i ∈ topKIndices scores k))

/-- Modelled from the spec: the transformed matrix, column-wise: the original
columns at the selected positions. -/
def skbTransformCols (Xcols : List (List ℚ)) (scores : List ℚ) (k : Nat) :
    List (List ℚ) :=
  (skbSupport scores k).map (fun i => Xcols.getD i [])

/-- Index of least importance in a candidate list (ties broken toward the
earlier entry); `0` on the empty list. -/
def argmin (f : Nat → ℚ) : List Nat → Nat
  | [] => 0
  | [a] => a
  | a :: b :: rest =>
      if f a ≤ f (argmin f (b :: rest)) then a else argmin f (b :: rest)

/-- Modelled from the spec: the elimination loop of recursive feature
elimination (`RFE`, whose implementation is not part of this repository's
sources): repeatedly score the active attributes with the wrapped model's
importance function `imp`, discard the weakest, until `n` remain.  The fuel
argument bounds the number of eliminations.  Returns the retained attributes
and the eliminated ones, most recently eliminated first. -/
def rfeAux (imp : List Nat → Nat → ℚ) (n : Nat) :
    Nat → List Nat → List Nat → List Nat × List Nat
  | 0, active, elim => (active, elim)
  | fuel + 1, active, elim =>
      if active.length ≤ n then (active, elim)
      else
        rfeAux imp n fuel (active.erase (argmin (imp active) active))
          (argmin (imp active) active :: elim)

/-- Modelled from the spec: recursive feature elimination over `nAttrs`
attributes, retaining `n` of them. -/
def rfeFit (imp : List Nat → Nat → ℚ) (n nAttrs : Nat) : List Nat × List Nat :=
  rfeAux imp n nAttrs (List.range nAttrs) []

/-- The boolean support mask (`fit.support_`): one entry per attribute
position, true when the attribute was retained. -/
def rfeSupport (imp : List Nat → Nat → ℚ) (n nAttrs : Nat) : List Bool :=
  (List.range nAttrs).map (fun i => decide (i ∈ (rfeFit imp n nAttrs).1))

/-- The rank array (`fit.ranking_`): retained attributes get rank 1;
eliminated attributes get increasing ranks, the earlier the elimination the
larger the rank. -/
def rfeRanking (imp : List Nat → Nat → ℚ) (n nAttrs : Nat) : List Nat :=
  (List.range nAttrs).map (fun i =>
    if i ∈ (rfeFit imp n nAttrs).1 then 1
    else (rfeFit imp n nAttrs).2.indexOf i + 2)

/-- Sort a list of rationals into descending order. -/
def sortDesc (l : List ℚ) : List ℚ := l.mergeSort (fun a b => decide (b ≤ a))

/-- Modelled from the spec: the explained-variance ratios reported by the
projection selector (`PCA`, whose implementation is not part of this
repository's sources): the per-component variances in descending order,
truncated to the requested `c` components, each divided by the total
variance. -/
def explainedVarianceRatio (variances : List ℚ) (c : Nat) : List ℚ :=
  ((sortDesc variances).take c).map (fun v => v / variances.sum)

/-- Modelled from the spec: feature importances of the randomized tree
ensemble (`ExtraTreesClassifier`, whose implementation is not part of this
repository's sources): the average over trees of each tree's per-attribute
impurity-reduction contribution. -/
def featureImportances (nAttrs : Nat) (trees : List (List ℚ)) : List ℚ :=
  (List.range nAttrs).map (fun i =>
    (trees.map (fun t => t.getD i 0)).sum / trees.length)

/-- Failure modes of a selector invocation. -/
inductive SelError
  | outOfRange
  | invalidValue
deriving DecidableEq

/-- The four selector variants with their configuration.  Requested counts
are integers so that zero and negative requests are representable. -/
inductive SelectorConfig
  | univariate (k : Int)
  | recursiveElim (n : Int)
  | projection (c : Int)
  | ensemble (nTrees : Int)
deriving DecidableEq

/-- What a successful selector invocation reports. -/
inductive SelectorOutput
  | scored (scores : List ℚ) (transformedCols : List (List ℚ))
  | masked (support : List Bool) (ranking : List Nat)
  | projected (evr : List ℚ)
  | importanceArray (values : List ℚ)
deriving DecidableEq

/-- Modelled from the spec: the chi-squared test statistic of one attribute
column against the labels.  The exact statistic is computed by the external
library and is opaque here; any deterministic function of column and labels
serves as its embedding. -/
def chi2Stat (c Y : List ℚ) : ℚ :=
  (List.zipWith (fun x y => x * y) c Y).sum

/-- Modelled from the spec: the external chi-squared scoring routine
(`sklearn.feature_selection.chi2`, not part of this repository's sources).
It requires non-negative attribute values and rejects the input otherwise;
the surrounding selector performs no such check of its own. -/
def chi2Scores (Xcols : List (List ℚ)) (Y : List ℚ) : Except SelError (List ℚ) :=
  if Xcols.all (fun c => c.all (fun v => decide (0 ≤ v))) then
    Except.ok (skbScores chi2Stat Xcols Y)
  else Except.error SelError.invalidValue

/-- Modelled from the spec: a deterministic stand-in for the wrapped
logistic-regression model's per-attribute importance used by recursive
elimination (the wrapped model is an external collaborator, not part of this
repository's sources). -/
def lrImportance (Xcols : List (List ℚ)) (Y : List ℚ) (active : List Nat)
    (i : Nat) : ℚ :=
  (List.zipWith (fun x y => x * y) (Xcols.getD i []) Y).sum / (active.length + 1)

/-- Population variance of one attribute column; the component variances fed
to the projection selector are modelled from these. -/
def colVariance (c : List ℚ) : ℚ :=
  (c.map (fun x => (x - c.sum / c.length) * (x - c.sum / c.length))).sum / c.length

/-- Modelled from the spec: a linear congruential generator standing in for
the library's random source; the seed is an explicit parameter so that runs
are reproducible. -/
def lcg (s : Nat) : Nat := (1103515245 * s + 12345) % 4294967296

/-- The `t`-th draw from the seeded generator. -/
def lcgStream (seed : Nat) : Nat → Nat
  | 0 => lcg seed
  | t + 1 => lcg (lcgStream seed t)

/-- Modelled from the spec: per-tree, per-attribute impurity-reduction
contributions of the randomized ensemble, drawn deterministically from the
seeded generator and the data. -/
def ensembleTrees (seed nTrees nAttrs : Nat) (Xcols : List (List ℚ)) :
    List (List ℚ) :=
  (List.range nTrees).map (fun t =>
    (List.range nAttrs).map (fun i =>
      ((lcgStream seed (t * nAttrs + i) % 100 : Nat) : ℚ) *
        ((Xcols.getD i []).map (fun x => x * x)).sum))

/-- One selector invocation at the notebook level: slice the attribute
columns and the labels out of the records, validate the requested count
against the available attributes (an out-of-range request aborts with an
error, producing no output), and dispatch on the variant. -/
def runSelector (cfg : SelectorConfig) (rows : List (List ℚ)) (seed : Nat) :
    Except SelError SelectorOutput :=
  match cfg with
  | SelectorConfig.univariate k =>
      if 1 ≤ k ∧ k ≤ ((colsOf rows).length : Int) then
        (chi2Scores (colsOf rows) (getY rows)).map (fun scores =>
          SelectorOutput.scored scores
            (skbTransformCols (colsOf rows) scores k.toNat))
      else Except.error SelError.outOfRange
  | SelectorConfig.recursiveElim n =>
      if 1 ≤ n ∧ n ≤ ((colsOf rows).length : Int) then
        Except.ok (SelectorOutput.masked
          (rfeSupport (lrImportance (colsOf rows) (getY rows)) n.toNat
            (colsOf rows).length)
          (rfeRanking (lrImportance (colsOf rows) (getY rows)) n.toNat
            (colsOf rows).length))
      else Except.error SelError.outOfRange
  | SelectorConfig.projection c =>
      if 1 ≤ c ∧ c ≤ ((colsOf rows).length : Int) then
        Except.ok (SelectorOutput.projected
          (explainedVarianceRatio ((colsOf rows).map colVariance) c.toNat))
      else Except.error SelError.outOfRange
  | SelectorConfig.ensemble nTrees =>
      if 1 ≤ nTrees then
        Except.ok (SelectorOutput.importanceArray
          (featureImportances (colsOf rows).length
            (ensembleTrees seed nTrees.toNat (colsOf rows).length (colsOf rows))))
      else Except.error SelError.outOfRange

/-- Two successive invocations of the same selector on the same dataset with
the same seed, as a pair. -/
def runTwice (cfg : SelectorConfig) (rows : List (List ℚ)) (seed : Nat) :
    Except SelError SelectorOutput × Except SelError SelectorOutput :=
  (runSelector cfg rows seed, runSelector cfg rows seed)

/-- Whether a selector invocation succeeded. -/
def selOk : Except SelError SelectorOutput → Bool
  | Except.ok _ => true
  | Except.error _ => false

/-- The externally observable actions of the notebook cells, in program
order: the per-cell `read_csv` call, numpy print-option changes, and the
print statements.  `mutateDataset` belongs to the action vocabulary so that
its absence from the embedded cells is expressible. -/
inductive Action
  | readCsv
  | setPrintPrecision (p : Nat)
  | printScores
  | printTransformedSample (nrows : Nat)
  | printNumFeatures
  | printMask
  | printRanking
  | printEVR
  | printComponents
  | printImportanceArray
  | mutateDataset
deriving DecidableEq

/-- Cell 1 (univariate selection): `read_csv`, fit,
`numpy.set_printoptions(precision=3)`, `print(fit.scores_)`,
`print(features[0:5,:])`. -/
def univariateCell : List Action :=
  [Action.readCsv, Action.setPrintPrecision 3, Action.printScores,
    Action.printTransformedSample 5]

/-- Cell 2 (recursive elimination): `read_csv`, fit, three prints. -/
def rfeCell : List Action :=
  [Action.readCsv, Action.printNumFeatures, Action.printMask,
    Action.printRanking]

/-- Cell 3 (projection): `read_csv`, fit, prints of the explained-variance
ratios and of the component loading vectors. -/
def pcaCell : List Action :=
  [Action.readCsv, Action.printEVR, Action.printComponents]

/-- Cell 4 (ensemble importance): `read_csv`, fit, one print. -/
def ensembleCell : List Action :=
  [Action.readCsv, Action.printImportanceArray]

/-- The whole notebook run, cells in order. -/
def notebookActions : List Action :=
  univariateCell ++ rfeCell ++ pcaCell ++ ensembleCell

/-- Whether an action prints something. -/
def isPrint : Action → Bool
  | Action.readCsv => false
  | Action.setPrintPrecision _ => false
  | Action.mutateDataset => false
  | _ => true

/-- Whether an action prints a sample of transformed rows. -/
def isTransformedSample : Action → Bool
  | Action.printTransformedSample _ => true
  | _ => false

/-- numpy's default print precision, in effect until a cell changes it. -/
def defaultPrecision : Nat := 8

/-- Pair each action with the print precision in effect when it runs. -/
def withPrecision : Nat → List Action → List (Action × Nat)
  | _, [] => []
  | p, a :: rest =>
      match a with
      | Action.setPrintPrecision q => (a, q) :: withPrecision q rest
      | _ => (a, p) :: withPrecision p rest

/-! ### Helper lemmas about the univariate selection -/

theorem scoreGE_trans (scores : List ℚ) (a b c : Nat)
    (h1 : scoreGE scores a b = true) (h2 : scoreGE scores b c = true) :
    scoreGE scores a c = true := by
  simp only [scoreGE, decide_eq_true_iff] at *
  exact le_trans h2 h1

theorem scoreGE_total (scores : List ℚ) (a b : Nat) :
    (scoreGE scores a b || scoreGE scores b a) = true := by
  simp only [scoreGE, Bool.or_eq_true, decide_eq_true_iff]
  exact le_total _ _

theorem topKIndices_sublist_sorted (scores : List ℚ) (k : Nat) :
    (topKIndices scores k).Sublist
      ((List.range scores.length).mergeSort (scoreGE scores)) :=
  List.take_sublist _ _

theorem topKIndices_subset (scores : List ℚ) (k : Nat) :
    ∀ i ∈ topKIndices scores k, i < scores.length := by
  intro i hi
  have hmem : i ∈ (List.range scores.length).mergeSort (scoreGE scores) :=
    (topKIndices_sublist_sorted scores k).subset hi
  have := (List.mergeSort_perm (List.range scores.length) (scoreGE scores)).mem_iff.mp hmem
  exact List.mem_range.mp this

theorem topKIndices_nodup (scores : List ℚ) (k : Nat) :
    (topKIndices scores k).Nodup := by
  have hnd : ((List.range scores.length).mergeSort (scoreGE scores)).Nodup :=
    (List.mergeSort_perm (List.range scores.length) (scoreGE scores)).nodup_iff.mpr
      (List.nodup_range _)
  exact hnd.sublist (topKIndices_sublist_sorted scores k)

theorem topKIndices_length (scores : List ℚ) (k : Nat) (hk : k ≤ scores.length) :
    (topKIndices scores k).length = k := by
  have hlen : ((List.range scores.length).mergeSort (scoreGE scores)).length
      = scores.length :=
    (List.mergeSort_perm (List.range scores.length) (scoreGE scores)).length_eq.trans
      (List.length_range _)
  simp [topKIndices, hlen, hk]

/-- Every selected index has a score at least that of every unselected index:
the selected ones are those with the `k` highest scores. -/
theorem topKIndices_dominates (scores : List ℚ) (k : Nat)
    (i : Nat) (hi : i ∈ topKIndices scores k)
    (j : Nat) (hj : j < scores.length) (hj2 : j ∉ topKIndices scores k) :
    scores.getD j 0 ≤ scores.getD i 0 := by
  set sorted := (List.range scores.length).mergeSort (scoreGE scores) with hs
  have hpair : List.Pairwise (fun a b => scoreGE scores a b = true) sorted :=
    List.sorted_mergeSort (scoreGE_trans scores) (scoreGE_total scores) _
  have hsplit : sorted.take k ++ sorted.drop k = sorted := List.take_append_drop _ _
  have hpair2 : List.Pairwise (fun a b => scoreGE scores a b = true)
      (sorted.take k ++ sorted.drop k) := by rwa [hsplit]
  have hj3 : j ∈ sorted := by
    have : j ∈ List.range scores.length := List.mem_range.mpr hj
    exact ((List.mergeSort_perm (List.range scores.length)
      (scoreGE scores)).mem_iff).mpr this
  have hj4 : j ∈ sorted.take k ++ sorted.drop k := by rw [hsplit]; exact hj3
  have hjdrop : j ∈ sorted.drop k := by
    rcases List.mem_append.mp hj4 with h | h
    · exact absurd h hj2
    · exact h
  have := (List.pairwise_append.mp hpair2).2.2 i hi j hjdrop
  simpa [scoreGE, decide_eq_true_iff] using this

/-- A list of distinct naturals below `n` is a permutation of the sublist of
`range n` consisting of its members. -/
theorem filter_range_mem_perm (l : List Nat) (n : Nat) (hnd : l.Nodup)
    (hsub : ∀ x ∈ l, x < n) :
    ((List.range n).filter (fun i => decide (i ∈ l))).Perm l := by
  refine (List.perm_ext_iff_of_nodup ((List.nodup_range n).filter _) hnd).mpr ?_
  intro a
  simp only [List.mem_filter, List.mem_range, decide_eq_true_iff]
  constructor
  · rintro ⟨_, h⟩; exact h
  · intro h; exact ⟨hsub a h, h⟩

theorem skbScores_length (scoreFn : List ℚ → List ℚ → ℚ) (Xcols : List (List ℚ))
    (Y : List ℚ) : (skbScores scoreFn Xcols Y).length = Xcols.length := by
  simp [skbScores]

theorem skbSupport_length (scores : List ℚ) (k : Nat) (hk : k ≤ scores.length) :
    (skbSupport scores k).length = k := by
  have hperm := filter_range_mem_perm (topKIndices scores k) scores.length
    (topKIndices_nodup scores k) (topKIndices_subset scores k)
  have := hperm.length_eq
  simpa [skbSupport, topKIndices_length scores k hk] using this

/-- C1: for the univariate selector on a dataset with `attribute_count`
attribute columns and any `k` in `[1, attribute_count]`, the score array has
exactly `attribute_count` entries; the transformed matrix has exactly `k`
columns; each transformed column equals one of the original attribute columns
at a selected position; and every selected position's score is at least every
unselected position's score — the selected columns are those with the `k`
highest scores. -/
theorem selectKBest_spec (scoreFn : List ℚ → List ℚ → ℚ) (Xcols : List (List ℚ))
    (Y : List ℚ) (k : Nat) (_hk1 : 1 ≤ k) (hk2 : k ≤ Xcols.length) :
    (skbScores scoreFn Xcols Y).length = Xcols.length ∧
    (skbTransformCols Xcols (skbScores scoreFn Xcols Y) k).length = k ∧
    (∀ c ∈ skbTransformCols Xcols (skbScores scoreFn Xcols Y) k,
      ∃ i, i < Xcols.length ∧ c = Xcols.getD i [] ∧
        i ∈ topKIndices (skbScores scoreFn Xcols Y) k) ∧
    (∀ i ∈ topKIndices (skbScores scoreFn Xcols Y) k, ∀ j < Xcols.length,
      j ∉ topKIndices (skbScores scoreFn Xcols Y) k →
        (skbScores scoreFn Xcols Y).getD j 0 ≤ (skbScores scoreFn Xcols Y).getD i 0) := by
  have hslen : (skbScores scoreFn Xcols Y).length = Xcols.length :=
    skbScores_length scoreFn Xcols Y
  have hk2' : k ≤ (skbScores scoreFn Xcols Y).length := hslen ▸ hk2
  refine ⟨hslen, ?_, ?_, ?_⟩
  · simp [skbTransformCols, skbSupport_length _ k hk2']
  · intro c hc
    simp only [skbTransformCols, List.mem_map] at hc
    obtain ⟨i, hi, rfl⟩ := hc
    have hi2 : i ∈ topKIndices (skbScores scoreFn Xcols Y) k := by
      have := (List.mem_filter.mp hi).2
      simpa using this
    exact ⟨i, hslen ▸ topKIndices_subset _ k i hi2, rfl, hi2⟩
  · intro i hi j hj hj2
    exact topKIndices_dominates _ k i hi j (hslen ▸ hj) hj2

/-- Concrete instantiation of `selectKBest_spec`: two attribute columns,
keep the best one. -/
theorem selectKBest_spec_witness :
    (1 ≤ 1 ∧ 1 ≤ ([[(3 : ℚ), 4], [(1 : ℚ), 2]] : List (List ℚ)).length) ∧
    ((skbScores (fun c _ => c.sum) [[(3 : ℚ), 4], [(1 : ℚ), 2]] [0, 0]).length
        = ([[(3 : ℚ), 4], [(1 : ℚ), 2]] : List (List ℚ)).length ∧
      (skbTransformCols [[(3 : ℚ), 4], [(1 : ℚ), 2]]
        (skbScores (fun c _ => c.sum) [[(3 : ℚ), 4], [(1 : ℚ), 2]] [0, 0]) 1).length = 1 ∧
      (∀ c ∈ skbTransformCols [[(3 : ℚ), 4], [(1 : ℚ), 2]]
          (skbScores (fun c _ => c.sum) [[(3 : ℚ), 4], [(1 : ℚ), 2]] [0, 0]) 1,
        ∃ i, i < ([[(3 : ℚ), 4], [(1 : ℚ), 2]] : List (List ℚ)).length ∧
          c = ([[(3 : ℚ), 4], [(1 : ℚ), 2]] : List (List ℚ)).getD i [] ∧
          i ∈ topKIndices (skbScores (fun c _ => c.sum)
            [[(3 : ℚ), 4], [(1 : ℚ), 2]] [0, 0]) 1) ∧
      (∀ i ∈ topKIndices (skbScores (fun c _ => c.sum)
          [[(3 : ℚ), 4], [(1 : ℚ), 2]] [0, 0]) 1,
        ∀ j < ([[(3 : ℚ), 4], [(1 : ℚ), 2]] : List (List ℚ)).length,
          j ∉ topKIndices (skbScores (fun c _ => c.sum)
            [[(3 : ℚ), 4], [(1 : ℚ), 2]] [0, 0]) 1 →
          (skbScores (fun c _ => c.sum) [[(3 : ℚ), 4], [(1 : ℚ), 2]] [0, 0]).getD j 0 ≤
            (skbScores (fun c _ => c.sum) [[(3 : ℚ), 4], [(1 : ℚ), 2]] [0, 0]).getD i 0)) :=
  ⟨⟨by decide, by decide⟩,
    selectKBest_spec (fun c _ => c.sum) [[(3 : ℚ), 4], [(1 : ℚ), 2]] [0, 0] 1
      (by decide) (by decide)⟩

/-! ### Helper lemmas about recursive feature elimination -/

theorem argmin_mem (f : Nat → ℚ) : ∀ l : List Nat, l ≠ [] → argmin f l ∈ l
  | [], h => absurd rfl h
  | [a], _ => by simp [argmin]
  | a :: b :: rest, _ => by
      have ih := argmin_mem f (b :: rest) (by simp)
      simp only [argmin]
      by_cases h : f a ≤ f (argmin f (b :: rest))
      · simp [h]
      · simp only [if_neg h]
        exact List.mem_cons_of_mem a ih

theorem rfeAux_invariant (imp : List Nat → Nat → ℚ) (n : Nat) (fuel : Nat) :
    ∀ active elim, active.Nodup → n ≤ active.length → active.length ≤ fuel + n →
      (rfeAux imp n fuel active elim).1.length = n ∧
      (rfeAux imp n fuel active elim).1.Nodup ∧
      ∀ x ∈ (rfeAux imp n fuel active elim).1, x ∈ active := by
  induction fuel with
  | zero =>
      intro active elim hnd hn hf
      simp only [rfeAux]
      have hlen : active.length = n := le_antisymm (by simpa using hf) hn
      exact ⟨hlen, hnd, fun x hx => hx⟩
  | succ fuel ih =>
      intro active elim hnd hn hf
      by_cases h : active.length ≤ n
      · simp only [rfeAux, if_pos h]
        exact ⟨le_antisymm h hn, hnd, fun x hx => hx⟩
      · have hlt : n < active.length := lt_of_not_le h
        have hne : active ≠ [] := by
          intro he
          rw [he] at hlt
          simp at hlt
        have hw : argmin (imp active) active ∈ active := argmin_mem _ active hne
        have herase : (active.erase (argmin (imp active) active)).length
            = active.length - 1 := List.length_erase_of_mem hw
        have h1 : (active.erase (argmin (imp active) active)).Nodup := hnd.erase _
        have h2 : n ≤ (active.erase (argmin (imp active) active)).length := by omega
        have h3 : (active.erase (argmin (imp active) active)).length ≤ fuel + n := by
          omega
        obtain ⟨ha, hb, hc⟩ := ih (active.erase (argmin (imp active) active))
          (argmin (imp active) active :: elim) h1 h2 h3
        simp only [rfeAux, if_neg h]
        exact ⟨ha, hb, fun x hx => List.erase_subset _ _ (hc x hx)⟩

theorem rfeFit_retained (imp : List Nat → Nat → ℚ) (n nAttrs : Nat)
    (h2 : n ≤ nAttrs) :
    (rfeFit imp n nAttrs).1.length = n ∧ (rfeFit imp n nAttrs).1.Nodup ∧
    ∀ x ∈ (rfeFit imp n nAttrs).1, x < nAttrs := by
  have h := rfeAux_invariant imp n nAttrs (List.range nAttrs) []
    (List.nodup_range nAttrs) (by simpa using h2) (by simp)
  exact ⟨h.1, h.2.1, fun x hx => List.mem_range.mp (h.2.2 x hx)⟩

theorem getD_map_range {α : Type} (f : Nat → α) (n i : Nat) (hi : i < n) (d : α) :
    ((List.range n).map f).getD i d = f i := by
  have hlen : i < ((List.range n).map f).length := by simp [hi]
  rw [List.getD_eq_getElem _ _ hlen]
  simp

theorem countP_range_mem (l : List Nat) (n : Nat) (hnd : l.Nodup)
    (hsub : ∀ x ∈ l, x < n) :
    (List.range n).countP (fun i => decide (i ∈ l)) = l.length := by
  rw [List.countP_eq_length_filter]
  exact (filter_range_mem_perm l n hnd hsub).length_eq

/-- C2: for the recursive elimination selector with any requested retain-count
`n` in `[1, nAttrs]`, the boolean mask has length `nAttrs` with exactly `n`
true entries, and the rank array contains the value 1 exactly `n` times,
at exactly the positions where the mask is true. -/
theorem rfe_spec (imp : List Nat → Nat → ℚ) (n nAttrs : Nat)
    (_h1 : 1 ≤ n) (h2 : n ≤ nAttrs) :
    (rfeSupport imp n nAttrs).length = nAttrs ∧
    (rfeSupport imp n nAttrs).count true = n ∧
    (rfeRanking imp n nAttrs).length = nAttrs ∧
    (rfeRanking imp n nAttrs).count 1 = n ∧
    ∀ i < nAttrs, ((rfeRanking imp n nAttrs).getD i 0 = 1 ↔
      (rfeSupport imp n nAttrs).getD i false = true) := by
  obtain ⟨hlen, hnd, hsub⟩ := rfeFit_retained imp n nAttrs h2
  refine ⟨by simp [rfeSupport], ?_, by simp [rfeRanking], ?_, ?_⟩
  · rw [rfeSupport, List.count_eq_countP, List.countP_map]
    have : ((fun x => x == true) ∘ fun i => decide (i ∈ (rfeFit imp n nAttrs).1))
        = fun i => decide (i ∈ (rfeFit imp n nAttrs).1) := by
      funext i
      simp
    rw [this, countP_range_mem _ nAttrs hnd (fun x hx => hsub x hx), hlen]
  · rw [rfeRanking, List.count_eq_countP, List.countP_map]
    have : ((fun x => x == 1) ∘ fun i =>
        if i ∈ (rfeFit imp n nAttrs).1 then 1
        else (rfeFit imp n nAttrs).2.indexOf i + 2)
        = fun i => decide (i ∈ (rfeFit imp n nAttrs).1) := by
      funext i
      by_cases hi : i ∈ (rfeFit imp n nAttrs).1 <;> simp [hi]
    rw [this, countP_range_mem _ nAttrs hnd (fun x hx => hsub x hx), hlen]
  · intro i hi
    rw [rfeRanking, rfeSupport, getD_map_range _ nAttrs i hi, getD_map_range _ nAttrs i hi]
    by_cases hmem : i ∈ (rfeFit imp n nAttrs).1 <;> simp [hmem]

/-- Concrete instantiation of `rfe_spec`: retain 2 of 3 attributes under a
constant importance function. -/
theorem rfe_spec_witness :
    (1 ≤ 2 ∧ 2 ≤ 3) ∧
    ((rfeSupport (fun _ _ => 0) 2 3).length = 3 ∧
      (rfeSupport (fun _ _ => 0) 2 3).count true = 2 ∧
      (rfeRanking (fun _ _ => 0) 2 3).length = 3 ∧
      (rfeRanking (fun _ _ => 0) 2 3).count 1 = 2 ∧
      ∀ i < 3, ((rfeRanking (fun _ _ => 0) 2 3).getD i 0 = 1 ↔
        (rfeSupport (fun _ _ => 0) 2 3).getD i false = true)) :=
  ⟨⟨by decide, by decide⟩, rfe_spec (fun _ _ => 0) 2 3 (by decide) (by decide)⟩

/-! ### The projection selector -/

theorem sortDesc_perm (l : List ℚ) : (sortDesc l).Perm l :=
  List.mergeSort_perm l _

theorem sortDesc_sorted (l : List ℚ) :
    List.Pairwise (fun a b => b ≤ a) (sortDesc l) := by
  have h := @List.sorted_mergeSort ℚ (fun a b : ℚ => decide (b ≤ a))
    (fun a b c h1 h2 => by
      simp only [decide_eq_true_iff] at *
      exact le_trans h2 h1)
    (fun a b => by
      simp only [Bool.or_eq_true, decide_eq_true_iff]
      exact le_total b a) l
  exact h.imp (fun hab => by simpa using hab)

theorem sum_map_div (l : List ℚ) (t : ℚ) :
    (l.map (fun v => v / t)).sum = l.sum / t := by
  induction l with
  | nil => simp
  | cons a l ih => simp [ih, add_div]

/-- C3: for the projection selector with any requested component count `c` in
`[1, nAttrs]`, given the (non-negative, not all zero) per-component variances,
the explained-variance-ratio sequence has length `c`, is non-increasing, each
entry lies in `[0, 1]`, and the entries sum to at most 1. -/
theorem pca_spec (variances : List ℚ) (c nAttrs : Nat)
    (hlen : variances.length = nAttrs)
    (hnn : ∀ v ∈ variances, 0 ≤ v) (hpos : 0 < variances.sum)
    (_hc1 : 1 ≤ c) (hc2 : c ≤ nAttrs) :
    (explainedVarianceRatio variances c).length = c ∧
    List.Pairwise (fun a b => b ≤ a) (explainedVarianceRatio variances c) ∧
    (∀ r ∈ explainedVarianceRatio variances c, 0 ≤ r ∧ r ≤ 1) ∧
    (explainedVarianceRatio variances c).sum ≤ 1 := by
  have hperm := sortDesc_perm variances
  have hslen : (sortDesc variances).length = nAttrs := hperm.length_eq.trans hlen
  refine ⟨?_, ?_, ?_, ?_⟩
  · simp [explainedVarianceRatio, hslen, hc2]
  · rw [explainedVarianceRatio, List.pairwise_map]
    have hp : List.Pairwise (fun a b => b ≤ a) ((sortDesc variances).take c) :=
      (sortDesc_sorted variances).sublist (List.take_sublist c _)
    exact hp.imp (fun hab => div_le_div_of_nonneg_right hab hpos.le)
  · intro r hr
    simp only [explainedVarianceRatio, List.mem_map] at hr
    obtain ⟨v, hv, rfl⟩ := hr
    have hv2 : v ∈ variances :=
      hperm.mem_iff.mp ((List.take_sublist c _).subset hv)
    exact ⟨div_nonneg (hnn v hv2) hpos.le,
      (div_le_one hpos).mpr (List.single_le_sum hnn v hv2)⟩
  · rw [explainedVarianceRatio, sum_map_div]
    refine (div_le_one hpos).mpr ?_
    have hsplit : ((sortDesc variances).take c).sum + ((sortDesc variances).drop c).sum
        = variances.sum := by
      rw [← List.sum_append, List.take_append_drop]
      exact hperm.sum_eq
    have hdrop : 0 ≤ ((sortDesc variances).drop c).sum := by
      apply List.sum_nonneg
      intro x hx
      exact hnn x (hperm.mem_iff.mp ((List.drop_sublist c _).subset hx))
    linarith

/-- Concrete instantiation of `pca_spec`: three component variances, two
requested components. -/
theorem pca_spec_witness :
    (([4, 1, 0] : List ℚ).length = 3 ∧ (∀ v ∈ ([4, 1, 0] : List ℚ), 0 ≤ v) ∧
      0 < ([4, 1, 0] : List ℚ).sum ∧ 1 ≤ 2 ∧ 2 ≤ 3) ∧
    ((explainedVarianceRatio [4, 1, 0] 2).length = 2 ∧
      List.Pairwise (fun a b => b ≤ a) (explainedVarianceRatio [4, 1, 0] 2) ∧
      (∀ r ∈ explainedVarianceRatio [4, 1, 0] 2, 0 ≤ r ∧ r ≤ 1) ∧
      (explainedVarianceRatio [4, 1, 0] 2).sum ≤ 1) :=
  ⟨⟨by decide, by decide, by norm_num, by decide, by decide⟩,
    pca_spec [4, 1, 0] 2 3 (by decide) (by decide) (by norm_num) (by decide) (by decide)⟩

/-! ### The ensemble importance selector -/

theorem getD_nonneg (t : List ℚ) (h : ∀ v ∈ t, 0 ≤ v) (i : Nat) :
    0 ≤ t.getD i 0 := by
  by_cases hi : i < t.length
  · rw [List.getD_eq_getElem _ _ hi]
    exact h _ (List.getElem_mem hi)
  · rw [List.getD_eq_default _ _ (le_of_not_lt hi)]

/-- C4: the ensemble importance selector applied over `nAttrs` attribute
columns returns exactly `nAttrs` importances, every one non-negative, given
that each tree's per-attribute contributions are non-negative. -/
theorem ensemble_importance_spec (nAttrs : Nat) (trees : List (List ℚ))
    (hnn : ∀ t ∈ trees, ∀ v ∈ t, 0 ≤ v) :
    (featureImportances nAttrs trees).length = nAttrs ∧
    ∀ v ∈ featureImportances nAttrs trees, 0 ≤ v := by
  refine ⟨by simp [featureImportances], ?_⟩
  intro v hv
  simp only [featureImportances, List.mem_map] at hv
  obtain ⟨i, _, rfl⟩ := hv
  apply div_nonneg
  · apply List.sum_nonneg
    intro x hx
    simp only [List.mem_map] at hx
    obtain ⟨t, ht, rfl⟩ := hx
    exact getD_nonneg t (hnn t ht) i
  · exact Nat.cast_nonneg _

/-- Concrete instantiation of `ensemble_importance_spec`: two trees over two
attributes. -/
theorem ensemble_importance_spec_witness :
    (∀ t ∈ ([[1, 2], [0, 3]] : List (List ℚ)), ∀ v ∈ t, 0 ≤ v) ∧
    ((featureImportances 2 [[1, 2], [0, 3]]).length = 2 ∧
      ∀ v ∈ featureImportances 2 [[1, 2], [0, 3]], 0 ≤ v) :=
  ⟨by decide, ensemble_importance_spec 2 [[1, 2], [0, 3]] (by decide)⟩

/-! ### Notebook-level properties -/

theorem colsOf_length (rows : List (List ℚ)) : (colsOf rows).length = 8 := by
  simp [colsOf, attrCount]

/-- C5: an out-of-range requested count — zero or negative, or exceeding the
8 available attributes — makes the univariate, recursive-elimination and
projection selectors abort with an out-of-range error, producing no output
(the ensemble selector requests no feature/component count). -/
theorem invalid_count_aborts (k : Int) (rows : List (List ℚ)) (seed : Nat)
    (hk : k ≤ 0 ∨ 8 < k) :
    runSelector (SelectorConfig.univariate k) rows seed
        = Except.error SelError.outOfRange ∧
    runSelector (SelectorConfig.recursiveElim k) rows seed
        = Except.error SelError.outOfRange ∧
    runSelector (SelectorConfig.projection k) rows seed
        = Except.error SelError.outOfRange := by
  have hcond : ¬(1 ≤ k ∧ k ≤ ((colsOf rows).length : Int)) := by
    rw [colsOf_length]
    push_cast
    omega
  refine ⟨?_, ?_, ?_⟩ <;> simp [runSelector, hcond]

/-- Concrete instantiation of `invalid_count_aborts`: requesting 9 of the 8
attributes. -/
theorem invalid_count_aborts_witness :
    ((9 : Int) ≤ 0 ∨ 8 < (9 : Int)) ∧
    (runSelector (SelectorConfig.univariate 9) [] 0
        = Except.error SelError.outOfRange ∧
      runSelector (SelectorConfig.recursiveElim 9) [] 0
        = Except.error SelError.outOfRange ∧
      runSelector (SelectorConfig.projection 9) [] 0
        = Except.error SelError.outOfRange) :=
  ⟨by decide, invalid_count_aborts 9 [] 0 (by decide)⟩

/-- C6: a selector invocation is a pure function of the dataset, the
configuration and the explicit random seed, so two invocations of the same
selector with the same configuration, dataset and seed produce identical
output. -/
theorem selector_deterministic (cfg : SelectorConfig) (rows : List (List ℚ))
    (seed : Nat) :
    (runTwice cfg rows seed).1 = (runTwice cfg rows seed).2 := rfl

/-- C7 counterexample: the notebook performs four `read_csv` calls — one per
selector cell — not a single read at the start of the run. -/
theorem dataset_read_four_times :
    notebookActions.count Action.readCsv = 4 ∧
    ¬ notebookActions.count Action.readCsv = 1 := by decide

/-- C7 (amended): each selector cell reads the dataset exactly once, as its
first action, and no action of the run mutates the dataset. -/
theorem dataset_reads_per_cell :
    (univariateCell.count Action.readCsv = 1 ∧
      univariateCell.head? = some Action.readCsv) ∧
    (rfeCell.count Action.readCsv = 1 ∧
      rfeCell.head? = some Action.readCsv) ∧
    (pcaCell.count Action.readCsv = 1 ∧
      pcaCell.head? = some Action.readCsv) ∧
    (ensembleCell.count Action.readCsv = 1 ∧
      ensembleCell.head? = some Action.readCsv) ∧
    notebookActions.count Action.mutateDataset = 0 := by decide

/-- C8 counterexample: the projection cell prints the component loading
vectors and no sample of transformed rows. -/
theorem pca_report_lacks_transformed_sample :
    pcaCell.countP isTransformedSample = 0 ∧
    Action.printComponents ∈ pcaCell := by decide

/-- C8 (amended): every print of the run happens with numpy print precision
3 (set in the first cell and persisting across the later cells); the
univariate cell prints the first 5 transformed rows; the projection cell
prints the component matrix and no transformed-row sample. -/
theorem report_format :
    (withPrecision defaultPrecision notebookActions).all
        (fun ap => !isPrint ap.1 || decide (ap.2 = 3)) = true ∧
    Action.printTransformedSample 5 ∈ univariateCell ∧
    Action.printComponents ∈ pcaCell ∧
    pcaCell.countP isTransformedSample = 0 ∧
    pcaCell.countP isTransformedSample ≠ 1 := by decide

theorem chi2_all_iff (Xcols : List (List ℚ)) :
    Xcols.all (fun c => c.all (fun v => decide (0 ≤ v))) = true ↔
    ∀ c ∈ Xcols, ∀ v ∈ c, 0 ≤ v := by
  simp [List.all_eq_true]

/-- C9: the univariate selector performs no non-negativity check of its own:
with a valid `k`, its fit succeeds exactly when every attribute value is
non-negative (so under that precondition the failure branch is unreachable),
and an invalid-value failure arises exactly from the external chi-squared
routine's rejection of a negative value. -/
theorem chi2_precondition (rows : List (List ℚ)) (seed : Nat) (k : Int)
    (hk : 1 ≤ k ∧ k ≤ 8) :
    (selOk (runSelector (SelectorConfig.univariate k) rows seed) = true ↔
      ∀ c ∈ colsOf rows, ∀ v ∈ c, 0 ≤ v) ∧
    (runSelector (SelectorConfig.univariate k) rows seed
        = Except.error SelError.invalidValue ↔
      ¬ ∀ c ∈ colsOf rows, ∀ v ∈ c, 0 ≤ v) := by
  have hcond : 1 ≤ k ∧ k ≤ ((colsOf rows).length : Int) := by
    rw [colsOf_length]
    push_cast
    omega
  by_cases hnn : ∀ c ∈ colsOf rows, ∀ v ∈ c, 0 ≤ v
  · have hall : (colsOf rows).all (fun c => c.all (fun v => decide (0 ≤ v)))
        = true := (chi2_all_iff (colsOf rows)).mpr hnn
    constructor
    · simp only [runSelector, chi2Scores, if_pos hcond, if_pos hall, Except.map, selOk]
      exact iff_of_true trivial hnn
    · simp only [runSelector, chi2Scores, if_pos hcond, if_pos hall, Except.map]
      exact iff_of_false (by simp) (fun hcontra => hcontra hnn)
  · have hall : ¬ ((colsOf rows).all (fun c => c.all (fun v => decide (0 ≤ v)))
        = true) := fun h => hnn ((chi2_all_iff (colsOf rows)).mp h)
    constructor
    · simp [runSelector, hcond, chi2Scores, hall, Except.map, selOk, hnn]
    · simp [runSelector, hcond, chi2Scores, hall, Except.map, hnn]

/-- Concrete instantiation of `chi2_precondition`: the empty record list (all
attribute columns empty, vacuously non-negative) with `k = 1`. -/
theorem chi2_precondition_witness :
    (1 ≤ (1 : Int) ∧ (1 : Int) ≤ 8) ∧
    ((selOk (runSelector (SelectorConfig.univariate 1) [] 0) = true ↔
        ∀ c ∈ colsOf [], ∀ v ∈ c, 0 ≤ v) ∧
      (runSelector (SelectorConfig.univariate 1) [] 0
          = Except.error SelError.invalidValue ↔
        ¬ ∀ c ∈ colsOf [], ∀ v ∈ c, 0 ≤ v)) :=
  ⟨by decide, chi2_precondition [] 0 1 (by decide)⟩

theorem getD_take_eq (r : List ℚ) (i : Nat) (hi : i < attrCount) :
    (r.take attrCount).getD i 0 = r.getD i 0 := by
  rw [List.getD_eq_getElem?_getD, List.getD_eq_getElem?_getD,
    List.getElem?_take_of_lt hi]

theorem colsOf_eq_of_getX_eq (rows₁ rows₂ : List (List ℚ))
    (h : getX rows₁ = getX rows₂) : colsOf rows₁ = colsOf rows₂ := by
  have key : ∀ rows : List (List ℚ), ∀ i < attrCount,
      rows.map (fun r => r.getD i 0) = (getX rows).map (fun r => r.getD i 0) := by
    intro rows i hi
    rw [getX, List.map_map]
    apply List.map_congr_left
    intro r _
    exact (getD_take_eq r i hi).symm
  rw [colsOf, colsOf]
  apply List.map_congr_left
  intro i hi
  rw [key rows₁ i (List.mem_range.mp hi), key rows₂ i (List.mem_range.mp hi), h]

/-- C10: the projection selector's output depends only on the attribute
matrix: two datasets agreeing on attribute columns 0..7 yield identical
output, whatever their label columns (and whatever the seeds, which the
projection path never consults). -/
theorem pca_ignores_labels (rows₁ rows₂ : List (List ℚ)) (c : Int)
    (seed₁ seed₂ : Nat) (h : getX rows₁ = getX rows₂) :
    runSelector (SelectorConfig.projection c) rows₁ seed₁
      = runSelector (SelectorConfig.projection c) rows₂ seed₂ := by
  have hc := colsOf_eq_of_getX_eq rows₁ rows₂ h
  simp [runSelector, hc]

/-- Concrete instantiation of `pca_ignores_labels`: one record with identical
attributes but different labels and different seeds. -/
theorem pca_ignores_labels_witness :
    getX [[(1 : ℚ), 2, 3, 4, 5, 6, 7, 8, 0]] = getX [[(1 : ℚ), 2, 3, 4, 5, 6, 7, 8, 9]] ∧
    runSelector (SelectorConfig.projection 3) [[(1 : ℚ), 2, 3, 4, 5, 6, 7, 8, 0]] 0
      = runSelector (SelectorConfig.projection 3) [[(1 : ℚ), 2, 3, 4, 5, 6, 7, 8, 9]] 1 :=
  ⟨by decide,
    pca_ignores_labels [[(1 : ℚ), 2, 3, 4, 5, 6, 7, 8, 0]]
      [[(1 : ℚ), 2, 3, 4, 5, 6, 7, 8, 9]] 3 0 1 (by decide)⟩

end FeatureSelection
